import Mathlib

/-!
Shallow embedding of the Salsa20 stream cipher implementation
(`src/Salsa20_FINAL.c`).  Machine integers are modelled as `Nat` with
explicit reduction modulo `2 ^ 32` (for `uint32_t` arithmetic) and
modulo `256` (for `uint8_t` stores); byte arrays are `List Nat`.
Each definition mirrors one C function of the source.
-/

namespace Salsa20

/-- `rotl` (source lines 6-8): `(value << shift) | (value >> (32 - shift))`
on `uint32_t`, the left shift truncating modulo `2 ^ 32`. -/
def rotl (value : Nat) (shift : Nat) : Nat :=
  ((value <<< shift) % 2 ^ 32) ||| (value >>> (32 - shift))

/-- `s20_quarterround` (source lines 11-16).  The four words are updated in
sequence, each step reading the values produced by the previous steps;
`uint32_t` addition wraps modulo `2 ^ 32`.  Returns `(y0, y1, y2, y3)`. -/
def s20_quarterround (y0 y1 y2 y3 : Nat) : Nat × Nat × Nat × Nat :=
  let z1 := y1 ^^^ rotl ((y0 + y3) % 2 ^ 32) 7
  let z2 := y2 ^^^ rotl ((z1 + y0) % 2 ^ 32) 9
  let z3 := y3 ^^^ rotl ((z2 + z1) % 2 ^ 32) 13
  let z0 := y0 ^^^ rotl ((z3 + z2) % 2 ^ 32) 18
  (z0, z1, z2, z3)

/-- One call `s20_quarterround(&y[a], &y[b], &y[c], &y[d])` on a 16-word
state held as a list: read the four cells, update them in place. -/
def applyQR (y : List Nat) (a b c d : Nat) : List Nat :=
  let q := s20_quarterround (y.getD a 0) (y.getD b 0) (y.getD c 0) (y.getD d 0)
  (((y.set a q.1).set b q.2.1).set c q.2.2.1).set d q.2.2.2

/-- `s20_rowround` (source lines 19-24). -/
def s20_rowround (y : List Nat) : List Nat :=
  applyQR (applyQR (applyQR (applyQR y 0 1 2 3) 5 6 7 4) 10 11 8 9) 15 12 13 14

/-- `s20_columnround` (source lines 27-32). -/
def s20_columnround (x : List Nat) : List Nat :=
  applyQR (applyQR (applyQR (applyQR x 0 4 8 12) 5 9 13 1) 10 14 2 6) 15 3 7 11

/-- `s20_doubleround` (source lines 35-38): column-round then row-round. -/
def s20_doubleround (x : List Nat) : List Nat :=
  s20_rowround (s20_columnround x)

/-- `s20_littleendian` (source lines 41-46): decode 4 bytes at `b` as a
little-endian 32-bit word. -/
def s20_littleendian (b : List Nat) : Nat :=
  b.getD 0 0 + (b.getD 1 0 <<< 8) + (b.getD 2 0 <<< 16) + (b.getD 3 0 <<< 24)

/-- `s20_rev_littleendian` (source lines 49-54): the 4 bytes stored for a
32-bit word, each `uint8_t` store truncating modulo 256. -/
def s20_rev_littleendian (w : Nat) : List Nat :=
  [w % 256, (w >>> 8) % 256, (w >>> 16) % 256, (w >>> 24) % 256]

/-- The store `s20_rev_littleendian(b + off, w)`: overwrite 4 bytes of `b`
starting at offset `off`. -/
def writeRevLE (b : List Nat) (off : Nat) (w : Nat) : List Nat :=
  b.take off ++ s20_rev_littleendian w ++ b.drop (off + 4)

/-- The loop `for (i = 0; i < 10; ++i) s20_doubleround(z);` of `s20_hash`:
apply `s20_doubleround` `m` times. -/
def iterDR : Nat → List Nat → List Nat
  | 0, z => z
  | m + 1, z => iterDR m (s20_doubleround z)

/-- `s20_hash` (source lines 57-75): decode the 64-byte block as 16
little-endian words `x`, apply 10 double-rounds to a copy `z`, add `x`
word-wise (wrapping), and re-encode the words little-endian. -/
def s20_hash (seq : List Nat) : List Nat :=
  let x := (List.range 16).map (fun i => s20_littleendian (seq.drop (4 * i)))
  let z := iterDR 10 x
  ((List.range 16).map (fun i =>
    s20_rev_littleendian ((z.getD i 0 + x.getD i 0) % 2 ^ 32))).flatten

/-- The constant table `o` of `s20_expand32` (source lines 84-87):
the ASCII bytes of "expa", "nd 3", "2-by", "te k". -/
def sigmaConst : List (List Nat) :=
  [[101, 120, 112, 97], [110, 100, 32, 51], [50, 45, 98, 121], [116, 101, 32, 107]]

/-- The assembly loops of `s20_expand32` (source lines 90-99): write the
four sigma constants at offsets 0, 20, 40, 60 (`keystream[i+j] = o[i/20][j]`),
then for `i < 16` write `keystream[4+i] = k[i]`, `keystream[44+i] = k[i+16]`,
`keystream[24+i] = n[i]`.  The C array is uninitialised; every byte is
written, so the all-zero start is immaterial. -/
def s20_expand32_assemble (k n : List Nat) : List Nat :=
  let ks0 := [0, 20, 40, 60].foldl
    (fun ks i => (List.range 4).foldl
      (fun ks j => ks.set (i + j) ((sigmaConst.getD (i / 20) []).getD j 0)) ks)
    (List.replicate 64 0)
  (List.range 16).foldl
    (fun ks i =>
      ((ks.set (4 + i) (k.getD i 0)).set (44 + i) (k.getD (i + 16) 0)).set
        (24 + i) (n.getD i 0))
    ks0

/-- `s20_expand32` (source lines 78-102): assemble the 64-byte pre-hash
state and hash it in place. -/
def s20_expand32 (k n : List Nat) : List Nat :=
  s20_hash (s20_expand32_assemble k n)

/-- The setup `uint8_t n[16] = {0}; for (i = 0; i < 8; ++i) n[i] = nonce[i];`
of `s20_crypt` (source lines 116-121). -/
def mkN (nonce : List Nat) : List Nat :=
  (List.range 8).foldl (fun n i => n.set i (nonce.getD i 0)) (List.replicate 16 0)

/-- The main loop of `s20_crypt` (source lines 125-135), processing the
remaining buffer bytes starting at call-local index `i` with current
keystream block `ks`: when `i % 64 == 0` the counter `i / 64` is stored
little-endian at `n+8` and the block is regenerated; then
`buf[i] ^= keystream[(si + i) % 64]` (the `uint32_t` sum `si + i`
wrapping modulo `2 ^ 32`). -/
def cryptAux (key n : List Nat) (si : Nat) : Nat → List Nat → List Nat → List Nat
  | _, _, [] => []
  | i, ks, b :: rest =>
    (b ^^^ (if i % 64 = 0 then s20_expand32 key (writeRevLE n 8 (i / 64)) else ks).getD
        ((si + i) % 2 ^ 32 % 64) 0)
      :: cryptAux key n si (i + 1)
          (if i % 64 = 0 then s20_expand32 key (writeRevLE n 8 (i / 64)) else ks) rest

/-- `s20_crypt` (source lines 106-136).  The buffer is the list `buf`
(so `buflen` is `buf.length`); the uninitialised local `keystream[64]`
is modelled as zeros, regenerated before first use. -/
def s20_crypt (key nonce : List Nat) (si : Nat) (buf : List Nat) : List Nat :=
  cryptAux key (mkN nonce) si 0 (List.replicate 64 0) buf

/-- The keystream byte xored at position `i` of a `s20_crypt` call: byte
`(si + i) % 64` of the block generated for counter `i / 64`.  Depends only
on the key, the nonce, `si` and the position, not on the buffer. -/
def keystreamByte (key nonce : List Nat) (si i : Nat) : Nat :=
  (s20_expand32 key (writeRevLE (mkN nonce) 8 (i / 64))).getD ((si + i) % 64) 0

/-! ### Helper lemmas about the stream driver loop -/

lemma cryptAux_length (key n : List Nat) (si : Nat) :
    ∀ (buf : List Nat) (i : Nat) (ks : List Nat),
      (cryptAux key n si i ks buf).length = buf.length := by
  intro buf
  induction buf with
  | nil => intro i ks; rfl
  | cons b rest ih => intro i ks; simp [cryptAux, ih]

/-- Closed form of the stream-driver loop: provided the incoming keystream
block is the one for counter `i / 64` whenever the loop will not regenerate
at once (`i % 64 ≠ 0`), byte `j` of the output is the input byte xored with
byte `(si + i + j) % 64` of the block for counter `(i + j) / 64`. -/
lemma cryptAux_getD (key n : List Nat) (si : Nat) :
    ∀ (buf : List Nat) (i : Nat) (ks : List Nat),
      (i % 64 ≠ 0 → ks = s20_expand32 key (writeRevLE n 8 (i / 64))) →
      ∀ j, j < buf.length →
        (cryptAux key n si i ks buf).getD j 0
          = buf.getD j 0 ^^^
            (s20_expand32 key (writeRevLE n 8 ((i + j) / 64))).getD ((si + i + j) % 64) 0 := by
  intro buf
  induction buf with
  | nil => intro i ks _ j hj; simp at hj
  | cons b rest ih =>
    intro i ks hks j hj
    have hmod : (si + i) % 2 ^ 32 % 64 = (si + i) % 64 :=
      Nat.mod_mod_of_dvd _ (by norm_num)
    have hks2 : (if i % 64 = 0 then s20_expand32 key (writeRevLE n 8 (i / 64)) else ks)
        = s20_expand32 key (writeRevLE n 8 (i / 64)) := by
      by_cases h : i % 64 = 0
      · simp [h]
      · simpa [h] using hks h
    match j with
    | 0 =>
      simp only [cryptAux, hks2, List.getD_cons_zero, hmod, Nat.add_zero]
    | j + 1 =>
      have hnext : (i + 1) % 64 ≠ 0 →
          (if i % 64 = 0 then s20_expand32 key (writeRevLE n 8 (i / 64)) else ks)
            = s20_expand32 key (writeRevLE n 8 ((i + 1) / 64)) := by
        intro h1
        rw [hks2]
        have : i / 64 = (i + 1) / 64 := by omega
        rw [this]
      have hrec := ih (i + 1) _ hnext j (by simpa using hj)
      have e1 : i + 1 + j = i + (j + 1) := by omega
      have e2 : si + (i + 1) + j = si + i + (j + 1) := by omega
      rw [e1, e2] at hrec
      simpa only [cryptAux, List.getD_cons_succ] using hrec

lemma crypt_length (key nonce : List Nat) (si : Nat) (buf : List Nat) :
    (s20_crypt key nonce si buf).length = buf.length :=
  cryptAux_length key (mkN nonce) si buf 0 (List.replicate 64 0)

/-- Closed form of `s20_crypt`: each buffer byte is xored with
`keystreamByte`, which does not depend on the buffer. -/
lemma crypt_getD (key nonce : List Nat) (si : Nat) (buf : List Nat) (i : Nat)
    (hi : i < buf.length) :
    (s20_crypt key nonce si buf).getD i 0
      = buf.getD i 0 ^^^ keystreamByte key nonce si i := by
  have h := cryptAux_getD key (mkN nonce) si buf 0 (List.replicate 64 0)
    (fun h => absurd rfl h) i hi
  simpa [s20_crypt, keystreamByte] using h

lemma xor_cancel_self (a k : Nat) : (a ^^^ k) ^^^ a = k := by
  rw [Nat.xor_comm a k, Nat.xor_assoc, Nat.xor_self, Nat.xor_zero]

/-! ### Claims -/

/-- C1: `s20_crypt` xors buffer byte `i` with byte `(si + i) % 64` of the
keystream block generated by Block Expansion from the 16-byte input field
consisting of the 8 nonce bytes, the counter `i / 64` (call-local, so
independent of `si`) encoded little-endian in the next 4 bytes, and 4 high
counter bytes equal to zero. -/
theorem s20_crypt_byte_spec (key nonce : List Nat) (si : Nat) (buf : List Nat)
    (i : Nat) (hi : i < buf.length) :
    (s20_crypt key nonce si buf).getD i 0
      = buf.getD i 0 ^^^
          (s20_expand32 key
            ((List.range 8).map (fun j => nonce.getD j 0)
              ++ s20_rev_littleendian (i / 64) ++ List.replicate 4 0)).getD
            ((si + i) % 64) 0 := by
  have h := crypt_getD key nonce si buf i hi
  have hfield : writeRevLE (mkN nonce) 8 (i / 64)
      = (List.range 8).map (fun j => nonce.getD j 0)
          ++ s20_rev_littleendian (i / 64) ++ List.replicate 4 0 := rfl
  simp only [keystreamByte, hfield] at h
  exact h

theorem s20_crypt_byte_spec_witness :
    (s20_crypt (List.replicate 32 0) (List.replicate 8 0) 3 [7, 7]).getD 1 0
      = [7, 7].getD 1 0 ^^^
          (s20_expand32 (List.replicate 32 0)
            ((List.range 8).map (fun j => (List.replicate 8 0).getD j 0)
              ++ s20_rev_littleendian (1 / 64) ++ List.replicate 4 0)).getD
            ((3 + 1) % 64) 0 :=
  s20_crypt_byte_spec (List.replicate 32 0) (List.replicate 8 0) 3 [7, 7] 1 (by decide)

/-- C2: applying `s20_crypt` twice with the same key, nonce and starting
index restores the buffer (encryption and decryption are the same
self-inverse operation). -/
theorem s20_crypt_involution (key nonce : List Nat) (si : Nat) (buf : List Nat) :
    s20_crypt key nonce si (s20_crypt key nonce si buf) = buf := by
  apply List.ext_getElem
  · rw [crypt_length, crypt_length]
  · intro i h1 h2
    have l1 : i < (s20_crypt key nonce si buf).length := by
      rw [crypt_length]; exact h2
    rw [← List.getD_eq_getElem _ 0 h1, ← List.getD_eq_getElem _ 0 h2,
      crypt_getD _ _ _ _ _ l1, crypt_getD _ _ _ _ _ h2,
      Nat.xor_assoc, Nat.xor_self, Nat.xor_zero]

/-- C8: a zero-length buffer is a no-op: the empty buffer is returned
unchanged for every key, nonce and starting index. -/
theorem s20_crypt_nil (key nonce : List Nat) (si : Nat) :
    s20_crypt key nonce si [] = [] := rfl

/-- C9: `s20_crypt` only transforms the buffer positions below `buflen`
(the output has the buffer's length), and the keystream byte xored at a
position is `keystreamByte`, a function of the key, the nonce, `si` and
the position only — the same for any two buffers, independent of the
buffer's contents.  (The key and nonce are pure inputs of every definition
involved, hence never written.) -/
theorem s20_crypt_frame (key nonce : List Nat) (si : Nat) (b1 b2 : List Nat)
    (i : Nat) (h1 : i < b1.length) (h2 : i < b2.length) :
    (s20_crypt key nonce si b1).length = b1.length ∧
    (s20_crypt key nonce si b1).getD i 0
      = b1.getD i 0 ^^^ keystreamByte key nonce si i ∧
    (s20_crypt key nonce si b1).getD i 0 ^^^ b1.getD i 0
      = (s20_crypt key nonce si b2).getD i 0 ^^^ b2.getD i 0 := by
  refine ⟨crypt_length _ _ _ _, crypt_getD _ _ _ _ _ h1, ?_⟩
  rw [crypt_getD _ _ _ _ _ h1, crypt_getD _ _ _ _ _ h2,
    xor_cancel_self, xor_cancel_self]

theorem s20_crypt_frame_witness :
    (s20_crypt (List.replicate 32 0) (List.replicate 8 0) 0 [1]).length = [1].length ∧
    (s20_crypt (List.replicate 32 0) (List.replicate 8 0) 0 [1]).getD 0 0
      = [1].getD 0 0 ^^^ keystreamByte (List.replicate 32 0) (List.replicate 8 0) 0 0 ∧
    (s20_crypt (List.replicate 32 0) (List.replicate 8 0) 0 [1]).getD 0 0 ^^^ [1].getD 0 0
      = (s20_crypt (List.replicate 32 0) (List.replicate 8 0) 0 [2]).getD 0 0
          ^^^ [2].getD 0 0 :=
  s20_crypt_frame (List.replicate 32 0) (List.replicate 8 0) 0 [1] [2] 0
    (by decide) (by decide)

/-- C10: encoding a 32-bit word with `s20_rev_littleendian` and decoding
the 4 bytes with `s20_littleendian` yields the word back. -/
theorem littleendian_roundtrip (w : Nat) (hw : w < 2 ^ 32) :
    s20_littleendian (s20_rev_littleendian w) = w := by
  simp only [s20_littleendian, s20_rev_littleendian, List.getD_cons_zero,
    List.getD_cons_succ, Nat.shiftLeft_eq, Nat.shiftRight_eq_div_pow]
  norm_num
  omega

theorem littleendian_roundtrip_witness :
    s20_littleendian (s20_rev_littleendian 3735928559) = 3735928559 :=
  littleendian_roundtrip 3735928559 (by norm_num)

/-- The row wiring of the spec: Quarter-Round is applied to these index
4-tuples, in this order. -/
def rowTuples : List (Nat × Nat × Nat × Nat) :=
  [(0, 1, 2, 3), (5, 6, 7, 4), (10, 11, 8, 9), (15, 12, 13, 14)]

/-- The column wiring of the spec. -/
def colTuples : List (Nat × Nat × Nat × Nat) :=
  [(0, 4, 8, 12), (5, 9, 13, 1), (10, 14, 2, 6), (15, 3, 7, 11)]

/-- Apply Quarter-Round to each 4-tuple of indices in turn. -/
def applyRound (ts : List (Nat × Nat × Nat × Nat)) (y : List Nat) : List Nat :=
  ts.foldl (fun y t => applyQR y t.1 t.2.1 t.2.2.1 t.2.2.2) y

/-- C3: the quarter-round performs, in order,
`y1 ^= rotl(y0 + y3, 7)`, `y2 ^= rotl(y1 + y0, 9)`, `y3 ^= rotl(y2 + y1, 13)`,
`y0 ^= rotl(y3 + y2, 18)`, each step reading the new values produced by the
previous steps, with addition wrapping modulo `2 ^ 32`; and `rotl` is the
32-bit left circular rotation (low `32 - s` bits moved up by `s`, high `s`
bits moved to the bottom). -/
theorem s20_quarterround_order :
    (∀ y0 y1 y2 y3 : Nat,
      s20_quarterround y0 y1 y2 y3 =
        (let z1 := y1 ^^^ rotl ((y0 + y3) % 2 ^ 32) 7
         let z2 := y2 ^^^ rotl ((z1 + y0) % 2 ^ 32) 9
         let z3 := y3 ^^^ rotl ((z2 + z1) % 2 ^ 32) 13
         let z0 := y0 ^^^ rotl ((z3 + z2) % 2 ^ 32) 18
         (z0, z1, z2, z3))) ∧
    (∀ v s : Nat, v < 2 ^ 32 → 0 < s → s < 32 →
      rotl v s = (v % 2 ^ (32 - s)) * 2 ^ s + v / 2 ^ (32 - s)) := by
  refine ⟨fun y0 y1 y2 y3 => rfl, fun v s hv hs1 hs2 => ?_⟩
  have hsplit : (2 : Nat) ^ 32 = 2 ^ (32 - s) * 2 ^ s := by
    rw [← pow_add]
    congr 1
    omega
  have hb : v / 2 ^ (32 - s) < 2 ^ s :=
    Nat.div_lt_of_lt_mul (hsplit ▸ hv)
  rw [rotl, Nat.shiftLeft_eq, Nat.shiftRight_eq_div_pow, hsplit,
    Nat.mul_mod_mul_right, Nat.mul_comm (v % 2 ^ (32 - s)) (2 ^ s),
    ← Nat.mul_add_lt_is_or hb]

theorem s20_quarterround_order_witness :
    rotl 5 7 = (5 % 2 ^ 25) * 2 ^ 7 + 5 / 2 ^ 25 :=
  s20_quarterround_order.2 5 7 (by norm_num) (by norm_num) (by norm_num)

/-- C4: Row-Round applies Quarter-Round to the tuples
(0,1,2,3), (5,6,7,4), (10,11,8,9), (15,12,13,14) in that order,
Column-Round to (0,4,8,12), (5,9,13,1), (10,14,2,6), (15,3,7,11) in that
order, and Double-Round is Column-Round followed by Row-Round. -/
theorem s20_round_wiring (y : List Nat) :
    s20_rowround y = applyRound rowTuples y ∧
    s20_columnround y = applyRound colTuples y ∧
    s20_doubleround y = s20_rowround (s20_columnround y) := by
  refine ⟨?_, ?_, rfl⟩
  · simp only [applyRound, rowTuples, List.foldl_cons, List.foldl_nil]
    rfl
  · simp only [applyRound, colTuples, List.foldl_cons, List.foldl_nil]
    rfl

/-- C5: the Core Hash decodes the 64-byte block as 16 little-endian
words `x`, applies Double-Round exactly 10 times to a working copy,
adds each original word to the corresponding worked word modulo `2 ^ 32`
(feed-forward), and re-encodes the 16 sums as little-endian bytes. -/
theorem s20_hash_structure (seq : List Nat) :
    s20_hash seq =
      (let x := (List.range 16).map (fun i => s20_littleendian (seq.drop (4 * i)))
       let z := s20_doubleround (s20_doubleround (s20_doubleround (s20_doubleround
         (s20_doubleround (s20_doubleround (s20_doubleround (s20_doubleround
           (s20_doubleround (s20_doubleround x)))))))))
       ((List.range 16).map (fun i =>
         s20_rev_littleendian ((z.getD i 0 + x.getD i 0) % 2 ^ 32))).flatten) :=
  rfl

set_option maxHeartbeats 2000000 in
/-- C6: Block Expansion assembles the 64-byte pre-hash state as
"expa" ++ key[0..15] ++ "nd 3" ++ input-field ++ "2-by" ++ key[16..31]
++ "te k" (ASCII constants 101 120 112 97, 110 100 32 51, 50 45 98 121,
116 101 32 107), and its output is the Core Hash of that state. -/
theorem s20_expand32_layout (k n : List Nat) :
    s20_expand32 k n = s20_hash (s20_expand32_assemble k n) ∧
    s20_expand32_assemble k n =
      [101, 120, 112, 97] ++ (List.range 16).map (fun j => k.getD j 0)
        ++ [110, 100, 32, 51] ++ (List.range 16).map (fun j => n.getD j 0)
        ++ [50, 45, 98, 121] ++ (List.range 16).map (fun j => k.getD (16 + j) 0)
        ++ [116, 101, 32, 107] :=
  ⟨rfl, by simp [s20_expand32_assemble, sigmaConst, List.range_succ]⟩

set_option maxRecDepth 100000 in
set_option maxHeartbeats 4000000 in
/-- C7: for the 32-byte key whose byte 0 is 0x80 and all other bytes are
zero, with all-zero nonce and counter 0 (the all-zero 16-byte input
field), the keystream block equals the published Salsa20/20 reference
keystream (ECRYPT set 1, vector 0, 256-bit key):
E3BE8FDD 8BECA2E3 EA8EF947 5B29A6E7 003951E1 097A5C38 D23B7A5F AD9F6844
B22C9755 9E2723C7 CBBD3FE4 FC8D9A07 44652A83 E72A9C46 1876AF4D 7EF1A117. -/
theorem s20_expand32_known_answer :
    s20_expand32 (128 :: List.replicate 31 0) (List.replicate 16 0) =
      [227, 190, 143, 221, 139, 236, 162, 227,
       234, 142, 249, 71, 91, 41, 166, 231,
       0, 57, 81, 225, 9, 122, 92, 56,
       210, 59, 122, 95, 173, 159, 104, 68,
       178, 44, 151, 85, 158, 39, 35, 199,
       203, 189, 63, 228, 252, 141, 154, 7,
       68, 101, 42, 131, 231, 42, 156, 70,
       24, 118, 175, 77, 126, 241, 161, 23] := by
  decide

end Salsa20
